import Mathlib

/-!
Verification of the metric-estimation and resilient-scheduling pipeline of
BrainFlowsOnDesktop (src/main.py, src/logic/heartrate.py).

Numeric values are modelled by exact rationals.  Python dicts are modelled by
association lists with unique keys (lookup returns the first matching entry).
External DSP primitives (detrend, bandpass, FFT, the vendor heart-rate and
oxygen estimators) are parameters of the embedded functions, as the spec
places them outside the core.
-/

set_option autoImplicit false

namespace BFOD

/-- Python `int(x)` applied to a real value truncates toward zero. -/
def pyInt (x : ℚ) : ℤ := if 0 ≤ x then ⌊x⌋ else ⌈x⌉

/-- `int(v + 0.5)`: the rounding used at src/logic/heartrate.py lines 108-109. -/
def pyRoundHalfUp (v : ℚ) : ℤ := pyInt (v + 1/2)

/-- Lookup in a Python dict modelled as an association list. -/
def dictGet (d : List (String × ℚ)) (k : String) : Option ℚ :=
  (d.find? (fun p => p.1 == k)).map Prod.snd

/-- Python dict assignment `d[k] = v`: replaces the value at an existing key in
place (keeping its position), otherwise appends the new entry. -/
def dictSet (d : List (String × ℚ)) (k : String) (v : ℚ) : List (String × ℚ) :=
  match d with
  | [] => [(k, v)]
  | p :: rest => if p.1 == k then (k, v) :: rest else p :: dictSet rest k v

/-- The value of `dict(ChainMap(*data_dicts))` at key `k` (src/main.py line
140): `ChainMap.__getitem__` searches the underlying maps left to right and
returns the value from the first map that contains the key. -/
def chainMapGet (ds : List (List (String × ℚ))) (k : String) : Option ℚ :=
  match ds with
  | [] => none
  | d :: rest =>
    match dictGet d k with
    | some v => some v
    | none => chainMapGet rest k

/-- src/main.py lines 139-140:
`data_dicts = list(map(lambda logic: logic.get_data_dict(), logics))` polls
every configured source exactly once, in list order, and
`full_dict = dict(ChainMap(*data_dicts))` merges the records. -/
def board_update_full_dict {L : Type} (get_data_dict : L → List (String × ℚ))
    (logics : List L) (k : String) : Option ℚ :=
  chainMapGet (logics.map get_data_dict) k

/-- src/main.py line 99: `ema_decay = args.ema_decay / args.refresh_rate`, the
effective decay handed to the Focus_Relax constructor at line 110. -/
def BoardInit_ema_decay (args_ema_decay args_refresh_rate : ℚ) : ℚ :=
  args_ema_decay / args_refresh_rate

/-- src/logic/heartrate.py line 10: the constructor default `ema_decay=0.025`. -/
def HeartRate_default_ema_decay : ℚ := 25/1000

/-- src/main.py line 116 constructs `HeartRate(board)` passing no ema_decay
argument, so the HeartRate instance keeps the constructor default whatever the
command-line configuration was. -/
def BoardInit_heartRate_ema_decay (_args_ema_decay _args_refresh_rate : ℚ) : ℚ :=
  HeartRate_default_ema_decay

/-- src/logic/heartrate.py line 20:
`self.window_seconds = int(fft_size / self.ppg_sampling_rate) + 1`. -/
def HeartRate_window_seconds (fft_size sampling_rate : ℕ) : ℤ :=
  pyInt ((fft_size : ℚ) / (sampling_rate : ℚ)) + 1

/-- src/logic/heartrate.py line 21:
`self.max_sample_size = self.ppg_sampling_rate * self.window_seconds`. -/
def HeartRate_max_sample_size (fft_size sampling_rate : ℕ) : ℤ :=
  (sampling_rate : ℤ) * HeartRate_window_seconds fft_size sampling_rate

/-- Modelled from the spec: `utils.smooth` (utils.py is not part of the given
sources).  Spec section 4.3: `result[i] = (1 - decay) * previous[i] + decay *
new[i]` for every index. -/
def smooth (previous target : List ℚ) (decay : ℚ) : List ℚ :=
  (previous.zip target).map (fun p => (1 - decay) * p.1 + decay * p.2)

/-- src/logic/heartrate.py lines 100-104: the per-tick update of
`self.current_values`.  `none` models the initial `self.current_values = None`
(not an ndarray), adopted branch line 102; otherwise line 104 blends via
`utils.smooth(self.current_values, target_values, self.ema_decay)`. -/
def smoothStep (current_values : Option (List ℚ)) (target_values : List ℚ)
    (decay : ℚ) : List ℚ :=
  match current_values with
  | none => target_values
  | some prev => smooth prev target_values decay

/-- The sequence of smoothed vectors produced by successive `get_data_dict`
calls whose raw computed vectors are `targets`, starting from smoothing state
`current`. -/
def smoothOutputs (current : Option (List ℚ)) (decay : ℚ) :
    List (List ℚ) → List (List ℚ)
  | [] => []
  | t :: ts =>
    let nv := smoothStep current t decay
    nv :: smoothOutputs (some nv) decay ts

/-- The fixed metric names of src/logic/heartrate.py line 97. -/
def osc_param_names : List String :=
  ["osc_oxygen_percent", "osc_heart_bps", "osc_heart_bpm", "osc_respiration_bpm"]

/-- src/logic/heartrate.py lines 107-109: zip the names with the smoothed
vector, then round the two bpm entries with `int(v + 0.5)`.  In every call the
vector has the four entries of line 98, so both keys are present (Python would
raise KeyError otherwise); the `getD 0` default is unreachable there. -/
def HeartRate_ret_dict (current_values : List ℚ) : List (String × ℚ) :=
  let d0 := osc_param_names.zip current_values
  let d1 := dictSet d0 "osc_heart_bpm"
    ((pyRoundHalfUp ((dictGet d0 "osc_heart_bpm").getD 0) : ℤ) : ℚ)
  dictSet d1 "osc_respiration_bpm"
    ((pyRoundHalfUp ((dictGet d1 "osc_respiration_bpm").getD 0) : ℤ) : ℚ)

/-- `np.linspace(a, b, m)` with the default inclusive endpoint. -/
def linspace (a b : ℚ) (m : ℕ) : List ℚ :=
  if m = 0 then []
  else if m = 1 then [a]
  else (List.range m).map (fun i => a + (b - a) * i / (m - 1))

/-- Scan for the first pair attaining the maximal absolute second component,
`best` being the best pair seen so far.  This is
`fft_freq[idx][np.argmax(np.abs(fft_data[idx]))]` on the list of
(frequency, fft value) pairs: `np.argmax` returns the first index of the
maximum. -/
def selectPeakAux : List (ℚ × ℚ) → (ℚ × ℚ) → (ℚ × ℚ)
  | [], best => best
  | q :: qs, best =>
    if |best.2| < |q.2| then selectPeakAux qs q else selectPeakAux qs best

/-- First pair with maximal absolute magnitude, none on the empty list (numpy
raises on `argmax` of an empty selection). -/
def selectPeak : List (ℚ × ℚ) → Option (ℚ × ℚ)
  | [] => none
  | p :: ps => some (selectPeakAux ps p)

/-- src/logic/heartrate.py lines 44-47: the frequency axis
`np.linspace(0, rate / 2, len(fft_data) // 2)` zipped with the fft values it
indexes (`fft_data[idx]` reads fft_data at indices below `len(fft_data) // 2`),
restricted to bins with frequency in [0.1, 0.5] inclusive. -/
def respCandidates (ppg_sampling_rate : ℚ) (fft_data : List ℚ) : List (ℚ × ℚ) :=
  let fft_freq := linspace 0 (ppg_sampling_rate / 2) (fft_data.length / 2)
  (fft_freq.zip fft_data).filter (fun p => decide (1/10 ≤ p.1 ∧ p.1 ≤ 1/2))

/-- src/logic/heartrate.py lines 28-51, after the external detrend, bandpass
and FFT primitives: `fft_data` stands for the FFT output of the filtered
window, with `np.abs` modelled by the rational absolute value.  Returns the
peak in-band frequency times 60, or none when no bin lies in the band. -/
def estimate_respiration (ppg_sampling_rate : ℚ) (fft_data : List ℚ) : Option ℚ :=
  (selectPeak (respCandidates ppg_sampling_rate fft_data)).map (fun p => p.1 * 60)

/-- Observable actions of the timeout handler of src/main.py lines 154-167. -/
inductive SchedEvent where
  | signalConnectionLost
  | releaseSession
  | initAttempt (i : ℕ)
  deriving DecidableEq

/-- The `for i in range(3)` retry loop of src/main.py lines 162-167.  The list
gives the outcome of each BoardInit call that would run: `true` means success
(the loop breaks), `false` means a BrainFlowError (logged, loop continues).
Returns the attempt events in order and whether some attempt succeeded. -/
def retryLoop : List Bool → ℕ → List SchedEvent × Bool
  | [], _ => ([], false)
  | a :: rest, i =>
    if a then ([SchedEvent.initAttempt i], true)
    else
      let r := retryLoop rest (i + 1)
      (SchedEvent.initAttempt i :: r.1, r.2)

/-- One call of `board_update` (src/main.py lines 132-169).  `tick` is
`some full_dict` when executing the logics succeeds, `none` when a
TimeoutError is raised while executing them.  `attempts` gives the outcomes of
the BoardInit retries; `range(3)` consumes at most its first three entries.
On the timeout path `full_dict` was never assigned, so the final
`return full_dict` raises UnboundLocalError, modelled as `Except.error`: the
call yields no record whether or not a retry succeeded. -/
def board_update (tick : Option (List (String × ℚ))) (attempts : List Bool) :
    List SchedEvent × Except Unit (List (String × ℚ)) :=
  match tick with
  | some full_dict => ([], Except.ok full_dict)
  | none =>
    let r := retryLoop (attempts.take 3) 0
    (SchedEvent.signalConnectionLost :: SchedEvent.releaseSession :: r.1,
      Except.error ())

/-- Main-scope state of src/main.py.  `board`, `logics`, `refresh_rate_hz` are
rebound together at lines 130 and 164, so one session id stands for the trio;
`nextId` is the id a further `BoardInit` call would allocate, `released` the
ids passed to `release_session`, `calls` the ids on which the tick loop has
invoked `get_data_dict`, in order. -/
structure MainScope where
  board : ℕ
  nextId : ℕ
  released : List ℕ
  calls : List ℕ

/-- The bindings and effects of one `board_update(board, logics, ...)` call,
given the session id bound to its parameters.  On a timeout tick with a
successful reinitialization, line 157 releases the passed-in session and the
assignment at line 164 rebinds only board_update's own parameters (Python
assignment to a function parameter is local), so the fresh session id is
returned as the value of the local binding; a normal tick invokes
get_data_dict on the passed-in session.  Result:
((local board binding on exit, next fresh id), released ids, call targets). -/
def board_update_locals (board nextId : ℕ) (timeout : Bool) :
    (ℕ × ℕ) × List ℕ × List ℕ :=
  if timeout then ((nextId, nextId + 1), [board], [])
  else ((board, nextId), [], [board])

/-- One tick of the animation loop: `update` (src/main.py lines 254-256) calls
`board_update(board, logics, refresh_rate_hz)` with main's variables and reads
back only the returned dict, never board_update's local bindings, so
`MainScope.board` is unchanged by the call. -/
def mainTick (s : MainScope) (timeout : Bool) : MainScope :=
  let r := board_update_locals s.board s.nextId timeout
  { board := s.board
    nextId := r.1.2
    released := s.released ++ r.2.1
    calls := s.calls ++ r.2.2 }

/-- A heap of numpy arrays addressed by allocation index, for aliasing
reasoning about the in-place DSP primitives. -/
abbrev Store := List (List ℚ)

/-- Contents of the array at address `i`. -/
def Store.read (s : Store) (i : ℕ) : List ℚ := s.getD i []

/-- Overwrite the array at address `i`. -/
def Store.write (s : Store) (i : ℕ) (v : List ℚ) : Store := s.set i v

/-- `np.copy`: allocate a fresh array holding the same contents, returning its
address. -/
def Store.copyAlloc (s : Store) (i : ℕ) : Store × ℕ := (s ++ [s.read i], s.length)

/-- `DataFilter.detrend` / `DataFilter.perform_bandpass` mutate their argument
array in place; the numeric transform `f` itself is the external primitive. -/
def Store.inplace (s : Store) (i : ℕ) (f : List ℚ → List ℚ) : Store :=
  s.write i (f (s.read i))

/-- src/logic/heartrate.py lines 28-51 with the aliasing made explicit:
`resp_signal = np.copy(resp_signal)` rebinds the local name to a fresh array
and the in-place detrend and bandpass mutate only that copy.  `detrendF`,
`bandpassF` and `fftF` are the external DSP primitives. -/
def estimate_respiration_heap (s : Store) (resp_signal : ℕ)
    (detrendF bandpassF fftF : List ℚ → List ℚ) (rate : ℚ) : Store × Option ℚ :=
  let c := s.copyAlloc resp_signal
  let s2 := Store.inplace c.1 c.2 detrendF
  let s3 := Store.inplace s2 c.2 bandpassF
  (s3, estimate_respiration rate (fftF (Store.read s3 c.2)))

/-- src/logic/heartrate.py lines 53-74 with the aliasing made explicit:
`hr_ir, hr_red = np.copy(hr_ir), np.copy(hr_red)` rebinds both local names to
fresh arrays; detrend and bandpass mutate only the copies; the vendor
heart-rate primitive is pure.  Returns (heap, heart_bps, heart_bpm) with
`heart_bps = heart_bpm / 60`. -/
def estimate_heart_rate_heap (s : Store) (hr_ir hr_red : ℕ)
    (detrendF bandpassF : List ℚ → List ℚ) (vendor : List ℚ → List ℚ → ℚ) :
    Store × ℚ × ℚ :=
  let ci := s.copyAlloc hr_ir
  let cr := Store.copyAlloc ci.1 hr_red
  let s2 := Store.inplace cr.1 ci.2 detrendF
  let s3 := Store.inplace s2 cr.2 detrendF
  let s4 := Store.inplace s3 ci.2 bandpassF
  let s5 := Store.inplace s4 cr.2 bandpassF
  let heart_bpm := vendor (Store.read s5 ci.2) (Store.read s5 cr.2)
  (s5, heart_bpm / 60, heart_bpm)

/-! ## Helper lemmas -/

theorem pyInt_eq_floor (x : ℚ) (h : 0 ≤ x) : pyInt x = ⌊x⌋ := by
  simp [pyInt, h]

theorem pyRoundHalfUp_nearest (v : ℚ) (h : 0 ≤ v) :
    |((pyRoundHalfUp v : ℤ) : ℚ) - v| ≤ 1/2 := by
  have h2 : (0:ℚ) ≤ v + 1/2 := by linarith
  rw [pyRoundHalfUp, pyInt_eq_floor _ h2]
  rw [abs_le]
  constructor
  · have := Int.lt_floor_add_one (v + 1/2)
    push_cast at this ⊢
    linarith
  · have := Int.floor_le (v + 1/2)
    push_cast at this ⊢
    linarith

theorem smooth_decay_one (prev t : List ℚ) (h : prev.length = t.length) :
    smooth prev t 1 = t := by
  induction prev generalizing t with
  | nil =>
    cases t with
    | nil => rfl
    | cons b bs => simp at h
  | cons a as ih =>
    cases t with
    | nil => simp at h
    | cons b bs =>
      simp only [List.length_cons, Nat.add_right_cancel_iff] at h
      simp only [smooth, List.zip_cons_cons, List.map_cons]
      have hb : (1 - (1:ℚ)) * a + 1 * b = b := by ring
      rw [hb]
      have := ih bs h
      simp only [smooth] at this
      rw [this]

theorem smoothOutputs_decay_one (n : ℕ) (ts : List (List ℚ)) (prev : List ℚ)
    (hp : prev.length = n) (ht : ∀ t ∈ ts, t.length = n) :
    smoothOutputs (some prev) 1 ts = ts := by
  induction ts generalizing prev with
  | nil => rfl
  | cons t ts2 ih =>
    have hlen : t.length = n := ht t (by simp)
    have hstep : smoothStep (some prev) t 1 = t := by
      simpa [smoothStep] using smooth_decay_one prev t (by rw [hp, hlen])
    simp only [smoothOutputs, hstep]
    rw [ih t hlen (fun u hu => ht u (by simp [hu]))]

/-! ## Claims -/

/-- C2 (corrected): the claim says every configured Metric Source's decay is
`ema_decay / refresh_rate_hz`, but with the default configuration
(`ema_decay = 1`, `refresh_rate = 60`) the HeartRate instance's decay is the
constructor default 0.025, not 1/60. -/
theorem C2_counterexample :
    BoardInit_heartRate_ema_decay 1 60 ≠ BoardInit_ema_decay 1 60 := by
  simp only [BoardInit_heartRate_ema_decay, BoardInit_ema_decay,
    HeartRate_default_ema_decay]
  norm_num

/-- C2 (amended): the decay computed by BoardInit and handed to Focus_Relax is
`args.ema_decay / args.refresh_rate`, while the HeartRate source constructed at
line 116 keeps the constructor default 0.025 whatever the configuration;
in particular, under the default configuration the two differ. -/
theorem C2_decay_wiring (e r : ℚ) :
    BoardInit_ema_decay e r = e / r ∧
    BoardInit_heartRate_ema_decay e r = HeartRate_default_ema_decay ∧
    HeartRate_default_ema_decay = 1/40 ∧
    BoardInit_heartRate_ema_decay 1 60 ≠ BoardInit_ema_decay 1 60 := by
  refine ⟨rfl, rfl, by norm_num [HeartRate_default_ema_decay], ?_⟩
  simp only [BoardInit_heartRate_ema_decay, BoardInit_ema_decay,
    HeartRate_default_ema_decay]
  norm_num

/-- C4 (corrected): a configured `--ema-decay` of 1.0 does not make the
smoothed output equal the raw output on every tick: the per-instance decay is
the default 0.025 for HeartRate and `1/refresh_rate = 1/60` for Focus_Relax,
so the second tick lags behind a changed raw vector in both cases. -/
theorem C4_counterexample :
    smoothOutputs none (BoardInit_heartRate_ema_decay 1 60)
        [[100, 1, 60, 12], [100, 1, 120, 12]]
      ≠ [[100, 1, 60, 12], [100, 1, 120, 12]] ∧
    smoothOutputs none (BoardInit_ema_decay 1 60) [[0], [1]] ≠ [[0], [1]] := by
  constructor <;>
    · simp only [smoothOutputs, smoothStep, smooth, BoardInit_heartRate_ema_decay,
        HeartRate_default_ema_decay, BoardInit_ema_decay, List.zip_cons_cons,
        List.zip_nil_right, List.map_cons, List.map_nil, ne_eq, List.cons.injEq,
        and_true, true_and, not_and, List.nil_eq]
      norm_num

/-- C4 (amended): when the per-instance smoothing decay itself equals 1.0, the
smoothed vector equals the raw vector on every tick (no lag), for any run of
equal-length raw vectors; the configured `--ema-decay=1.0` however reaches no
source as an instance decay of 1.0. -/
theorem C4_decay_one_no_lag (n : ℕ) (targets : List (List ℚ))
    (h : ∀ t ∈ targets, t.length = n) :
    smoothOutputs none 1 targets = targets := by
  cases targets with
  | nil => rfl
  | cons t1 ts =>
    simp only [smoothOutputs, smoothStep]
    rw [smoothOutputs_decay_one n ts t1 (h t1 (by simp))
      (fun u hu => h u (by simp [hu]))]

theorem C4_witness :
    smoothOutputs none 1 [[(5:ℚ)], [7]] = [[(5:ℚ)], [7]] :=
  C4_decay_one_no_lag 1 [[(5:ℚ)], [7]] (by decide)

/-- C7 (confirmed): on the first tick (no smoothing state) the smoothing step
returns the newly computed vector unchanged, that vector becomes the state,
and the following tick blends against it as the previous state. -/
theorem C7_first_tick (decay : ℚ) (t1 t2 : List ℚ) (ts : List (List ℚ)) :
    smoothStep none t1 decay = t1 ∧
    smoothOutputs none decay (t1 :: t2 :: ts)
      = t1 :: smooth t1 t2 decay
          :: smoothOutputs (some (smooth t1 t2 decay)) decay ts :=
  ⟨rfl, rfl⟩

/-- C8 (confirmed): for positive sampling rate, the derived window length is
`floor(fft_size / sampling_rate) + 1` seconds, the maximum sample count is
`sampling_rate * window_seconds`, and sampling rate 64 with transform size
1024 yields 17 seconds. -/
theorem C8_window_arithmetic (fft_size sampling_rate : ℕ)
    (h : 0 < sampling_rate) :
    HeartRate_window_seconds fft_size sampling_rate
        = ⌊(fft_size : ℚ) / (sampling_rate : ℚ)⌋ + 1 ∧
    HeartRate_max_sample_size fft_size sampling_rate
        = (sampling_rate : ℤ) * HeartRate_window_seconds fft_size sampling_rate ∧
    HeartRate_window_seconds 1024 64 = 17 := by
  refine ⟨?_, rfl, ?_⟩
  · unfold HeartRate_window_seconds
    rw [pyInt_eq_floor]
    positivity
  · unfold HeartRate_window_seconds
    have h16 : ((1024:ℕ) : ℚ) / ((64:ℕ) : ℚ) = ((16:ℤ) : ℚ) := by norm_num
    rw [h16, pyInt_eq_floor _ (by norm_num), Int.floor_intCast]
    norm_num

theorem C8_witness :
    0 < 64 ∧ HeartRate_window_seconds 1024 64 = 17 :=
  ⟨by decide, (C8_window_arithmetic 1024 64 (by decide)).2.2⟩

/-- C1 (corrected): the claim says the later source in the list overwrites the
earlier one on a key collision, but `dict(ChainMap(*data_dicts))` takes the
value from the FIRST map containing the key: with sources 0 and 1 both
emitting key k (values 1 and 2), the merged record holds 1, not 2. -/
theorem C1_counterexample :
    board_update_full_dict
        (fun i : ℕ => if i = 0 then [("k", (1:ℚ))] else [("k", (2:ℚ))])
        [0, 1] "k" = some 1 ∧
    board_update_full_dict
        (fun i : ℕ => if i = 0 then [("k", (1:ℚ))] else [("k", (2:ℚ))])
        [0, 1] "k" ≠ some 2 := by
  constructor
  · rfl
  · simp [board_update_full_dict, chainMapGet, dictGet]

/-- C1 (amended): each configured source is polled exactly once, in list order
(the merged record is built from `logics.map get_data_dict`), and when two
sources emit the same key the value from the source EARLIER in the list wins;
the later value is discarded. -/
theorem C1_merge_earlier_wins {L : Type} (get_data_dict : L → List (String × ℚ))
    (l1 l2 : L) (k : String) (v1 v2 : ℚ)
    (h1 : dictGet (get_data_dict l1) k = some v1)
    (h2 : dictGet (get_data_dict l2) k = some v2) :
    board_update_full_dict get_data_dict [l1, l2] k = some v1 := by
  simp [board_update_full_dict, chainMapGet, h1]

theorem C1_witness :
    dictGet ((fun i : ℕ => if i = 0 then [("k", (1:ℚ))] else [("k", (2:ℚ))]) 0)
        "k" = some 1 ∧
    dictGet ((fun i : ℕ => if i = 0 then [("k", (1:ℚ))] else [("k", (2:ℚ))]) 1)
        "k" = some 2 ∧
    board_update_full_dict
        (fun i : ℕ => if i = 0 then [("k", (1:ℚ))] else [("k", (2:ℚ))])
        [0, 1] "k" = some 1 :=
  ⟨rfl, rfl,
    C1_merge_earlier_wins
      (fun i : ℕ => if i = 0 then [("k", (1:ℚ))] else [("k", (2:ℚ))])
      0 1 "k" 1 2 rfl rfl⟩

/-- C9 (confirmed): the published HeartRate record keeps the smoothed oxygen
and beats-per-second values unchanged and replaces the heart-rate and
respiration-rate values by `int(v + 0.5)`, which for the nonnegative rates the
estimators produce is an integer within 1/2 of the smoothed value, i.e. a
nearest integer (ties rounded up). -/
theorem C9_rounding (ox bps bpm resp : ℚ) (hb : 0 ≤ bpm) (hr : 0 ≤ resp) :
    dictGet (HeartRate_ret_dict [ox, bps, bpm, resp]) "osc_oxygen_percent"
        = some ox ∧
    dictGet (HeartRate_ret_dict [ox, bps, bpm, resp]) "osc_heart_bps"
        = some bps ∧
    dictGet (HeartRate_ret_dict [ox, bps, bpm, resp]) "osc_heart_bpm"
        = some ((pyRoundHalfUp bpm : ℤ) : ℚ) ∧
    |((pyRoundHalfUp bpm : ℤ) : ℚ) - bpm| ≤ 1/2 ∧
    dictGet (HeartRate_ret_dict [ox, bps, bpm, resp]) "osc_respiration_bpm"
        = some ((pyRoundHalfUp resp : ℤ) : ℚ) ∧
    |((pyRoundHalfUp resp : ℤ) : ℚ) - resp| ≤ 1/2 := by
  refine ⟨?_, ?_, ?_, pyRoundHalfUp_nearest bpm hb, ?_,
    pyRoundHalfUp_nearest resp hr⟩ <;>
    simp [HeartRate_ret_dict, osc_param_names, dictSet, dictGet]

theorem C9_witness :
    dictGet (HeartRate_ret_dict [97/100, 103/100, 617/10, 121/10])
        "osc_oxygen_percent" = some (97/100) ∧
    dictGet (HeartRate_ret_dict [97/100, 103/100, 617/10, 121/10])
        "osc_heart_bps" = some (103/100) ∧
    dictGet (HeartRate_ret_dict [97/100, 103/100, 617/10, 121/10])
        "osc_heart_bpm" = some ((pyRoundHalfUp (617/10) : ℤ) : ℚ) ∧
    |((pyRoundHalfUp (617/10) : ℤ) : ℚ) - 617/10| ≤ 1/2 ∧
    dictGet (HeartRate_ret_dict [97/100, 103/100, 617/10, 121/10])
        "osc_respiration_bpm" = some ((pyRoundHalfUp (121/10) : ℤ) : ℚ) ∧
    |((pyRoundHalfUp (121/10) : ℤ) : ℚ) - 121/10| ≤ 1/2 :=
  C9_rounding (97/100) (103/100) (617/10) (121/10) (by norm_num) (by norm_num)

theorem selectPeakAux_spec (l : List (ℚ × ℚ)) (best : ℚ × ℚ) :
    (selectPeakAux l best = best ∨ selectPeakAux l best ∈ l) ∧
    |best.2| ≤ |(selectPeakAux l best).2| ∧
    ∀ q ∈ l, |q.2| ≤ |(selectPeakAux l best).2| := by
  induction l generalizing best with
  | nil => simp [selectPeakAux]
  | cons q qs ih =>
    simp only [selectPeakAux]
    by_cases h : |best.2| < |q.2|
    · rw [if_pos h]
      obtain ⟨hm, hb, hall⟩ := ih q
      refine ⟨?_, le_trans (le_of_lt h) hb, ?_⟩
      · rcases hm with h1 | h1
        · right; rw [h1]; exact List.mem_cons_self q qs
        · right; exact List.mem_cons_of_mem q h1
      · intro u hu
        rcases List.mem_cons.mp hu with h1 | h1
        · rw [h1]; exact hb
        · exact hall u h1
    · rw [if_neg h]
      obtain ⟨hm, hb, hall⟩ := ih best
      refine ⟨?_, hb, ?_⟩
      · rcases hm with h1 | h1
        · left; exact h1
        · right; exact List.mem_cons_of_mem q h1
      · intro u hu
        rcases List.mem_cons.mp hu with h1 | h1
        · rw [h1]; exact le_trans (le_of_not_lt h) hb
        · exact hall u h1

theorem selectPeak_spec (l : List (ℚ × ℚ)) (h : l ≠ []) :
    ∃ p, selectPeak l = some p ∧ p ∈ l ∧ ∀ q ∈ l, |q.2| ≤ |p.2| := by
  cases l with
  | nil => exact absurd rfl h
  | cons c cs =>
    obtain ⟨hm, hb, hall⟩ := selectPeakAux_spec cs c
    refine ⟨selectPeakAux cs c, rfl, ?_, ?_⟩
    · rcases hm with h1 | h1
      · rw [h1]; exact List.mem_cons_self c cs
      · exact List.mem_cons_of_mem c h1
    · intro u hu
      rcases List.mem_cons.mp hu with h1 | h1
      · rw [h1]; exact hb
      · exact hall u h1

/-- C6 (confirmed): whenever at least one FFT bin has frequency in
[0.1, 0.5] Hz, the respiration estimator returns 60 times the frequency of the
first maximum-magnitude bin among those bins, and that value lies in
[6, 30] breaths-per-minute. -/
theorem C6_respiration (rate : ℚ) (fft_data : List ℚ)
    (h : respCandidates rate fft_data ≠ []) :
    ∃ p : ℚ × ℚ,
      p ∈ respCandidates rate fft_data ∧
      estimate_respiration rate fft_data = some (p.1 * 60) ∧
      (∀ q ∈ respCandidates rate fft_data, |q.2| ≤ |p.2|) ∧
      6 ≤ p.1 * 60 ∧ p.1 * 60 ≤ 30 := by
  obtain ⟨p, hsel, hmem, hmax⟩ := selectPeak_spec (respCandidates rate fft_data) h
  have hband : 1/10 ≤ p.1 ∧ p.1 ≤ 1/2 := by
    have := List.of_mem_filter hmem
    exact of_decide_eq_true this
  refine ⟨p, hmem, ?_, hmax, by linarith [hband.1], by linarith [hband.2]⟩
  simp [estimate_respiration, hsel]

theorem C6_witness :
    ∃ p : ℚ × ℚ,
      p ∈ respCandidates 1 [1, 2, 5, 3, 2, 1, 0, 0, 0, 0, 0, 0] ∧
      estimate_respiration 1 [1, 2, 5, 3, 2, 1, 0, 0, 0, 0, 0, 0]
        = some (p.1 * 60) ∧
      (∀ q ∈ respCandidates 1 [1, 2, 5, 3, 2, 1, 0, 0, 0, 0, 0, 0],
        |q.2| ≤ |p.2|) ∧
      6 ≤ p.1 * 60 ∧ p.1 * 60 ≤ 30 :=
  C6_respiration 1 [1, 2, 5, 3, 2, 1, 0, 0, 0, 0, 0, 0] (by
    have hc : respCandidates 1 [1, 2, 5, 3, 2, 1, 0, 0, 0, 0, 0, 0]
        = [(1/10, 2), (1/5, 5), (3/10, 3), (2/5, 2), (1/2, 1)] := by
      norm_num [respCandidates, linspace, List.range_succ, List.filter]
    simp [hc])

/-- Recognizer for reinitialization-attempt events. -/
def isInitAttempt : SchedEvent → Bool
  | SchedEvent.initAttempt _ => true
  | _ => false

theorem retryLoop_events (l : List Bool) (i : ℕ) :
    ∀ e ∈ (retryLoop l i).1, isInitAttempt e = true := by
  induction l generalizing i with
  | nil => simp [retryLoop]
  | cons a rest ih =>
    intro e he
    by_cases ha : a
    · simp only [retryLoop, if_pos ha, List.mem_singleton] at he
      rw [he]; rfl
    · simp only [retryLoop, if_neg ha, List.mem_cons] at he
      rcases he with h1 | h1
      · rw [h1]; rfl
      · exact ih (i + 1) e h1

theorem retryLoop_length (l : List Bool) (i : ℕ) :
    (retryLoop l i).1.length
      = (l.takeWhile (fun b => !b)).length + (if l.any id then 1 else 0) := by
  induction l generalizing i with
  | nil => simp [retryLoop]
  | cons a rest ih =>
    by_cases ha : a
    · subst ha
      simp [retryLoop, List.takeWhile]
    · have ha2 : a = false := Bool.eq_false_iff.mpr ha
      subst ha2
      simp only [retryLoop, if_neg Bool.false_ne_true, List.length_cons,
        List.takeWhile, List.any_cons, id_eq, Bool.false_or, Bool.not_false,
        ih (i + 1)]
      omega

theorem retryLoop_length_le (l : List Bool) (i : ℕ) :
    (retryLoop l i).1.length ≤ l.length := by
  induction l generalizing i with
  | nil => simp [retryLoop]
  | cons a rest ih =>
    by_cases ha : a
    · simp [retryLoop, if_pos ha]
    · simp only [retryLoop, if_neg ha, List.length_cons]
      exact Nat.succ_le_succ (ih (i + 1))

/-- C3 (confirmed): on a device timeout inside a tick, `board_update` signals
connectivity-lost exactly once, releases the session before any
reinitialization attempt, makes at most 3 attempts stopping at the first
success, and when every attempt fails the call produces no Aggregate Record
(the timeout path ends in `return full_dict` with `full_dict` unassigned,
which raises instead of returning a record). -/
theorem C3_timeout_recovery (attempts : List Bool) :
    (board_update none attempts).1.count SchedEvent.signalConnectionLost = 1 ∧
    (∃ tail,
      (board_update none attempts).1
        = SchedEvent.signalConnectionLost :: SchedEvent.releaseSession :: tail ∧
      ∀ e ∈ tail, isInitAttempt e = true) ∧
    (board_update none attempts).1.countP isInitAttempt
      = ((attempts.take 3).takeWhile (fun b => !b)).length
        + (if (attempts.take 3).any id then 1 else 0) ∧
    (board_update none attempts).1.countP isInitAttempt ≤ 3 ∧
    ((∀ a ∈ attempts.take 3, a = false) →
      (board_update none attempts).2 = Except.error ()) := by
  have hev := retryLoop_events (attempts.take 3) 0
  have hcnt : (retryLoop (attempts.take 3) 0).1.countP isInitAttempt
      = (retryLoop (attempts.take 3) 0).1.length :=
    List.countP_eq_length.mpr hev
  have hnotmem : SchedEvent.signalConnectionLost ∉ (retryLoop (attempts.take 3) 0).1 := by
    intro hm
    have := hev _ hm
    simp [isInitAttempt] at this
  refine ⟨?_, ⟨(retryLoop (attempts.take 3) 0).1, rfl, hev⟩, ?_, ?_, fun _ => rfl⟩
  · show List.count SchedEvent.signalConnectionLost
        (SchedEvent.signalConnectionLost :: SchedEvent.releaseSession
          :: (retryLoop (attempts.take 3) 0).1) = 1
    rw [List.count_cons_self, List.count_cons_of_ne (by decide),
      List.count_eq_zero.mpr hnotmem]
  · simp only [board_update, List.countP_cons]
    rw [hcnt, retryLoop_length]
    simp [isInitAttempt]
  · simp only [board_update, List.countP_cons]
    have h1 := retryLoop_length_le (attempts.take 3) 0
    have h2 : (attempts.take 3).length ≤ 3 := List.length_take_le 3 attempts
    rw [hcnt]
    norm_num [isInitAttempt]
    omega

theorem C3_witness :
    (board_update none [false, false, false]).2
        = Except.error () ∧
    (board_update none [false, false, false]).1.count
        SchedEvent.signalConnectionLost = 1 :=
  ⟨(C3_timeout_recovery [false, false, false]).2.2.2.2 (by decide),
    (C3_timeout_recovery [false, false, false]).1⟩

/-- C5 (confirmed): a successful reinitialization inside `board_update`
rebinds only its local parameters.  If every live session id is below
`nextId`, then after a timeout-recovered tick main still binds the original
session id, that id has been released, the fresh session bound locally is a
different id, and the next tick invokes `get_data_dict` against the original,
already-released session. -/
theorem C5_stale_session (s : MainScope) (h : s.board < s.nextId) :
    (mainTick s true).board = s.board ∧
    s.board ∈ (mainTick s true).released ∧
    (board_update_locals s.board s.nextId true).1.1 ≠ s.board ∧
    (mainTick (mainTick s true) false).calls = s.calls ++ [s.board] ∧
    s.board ∈ (mainTick (mainTick s true) false).released := by
  refine ⟨rfl, ?_, ?_, ?_, ?_⟩
  · simp [mainTick, board_update_locals]
  · simp only [board_update_locals, if_pos trivial]
    omega
  · simp [mainTick, board_update_locals]
  · simp [mainTick, board_update_locals]

theorem C5_witness :
    (mainTick ⟨0, 1, [], []⟩ true).board = 0 ∧
    0 ∈ (mainTick ⟨0, 1, [], []⟩ true).released ∧
    (board_update_locals 0 1 true).1.1 ≠ 0 ∧
    (mainTick (mainTick ⟨0, 1, [], []⟩ true) false).calls = [] ++ [0] ∧
    0 ∈ (mainTick (mainTick ⟨0, 1, [], []⟩ true) false).released :=
  C5_stale_session ⟨0, 1, [], []⟩ (by decide)

theorem Store_read_append_lt (s : Store) (v : List ℚ) (i : ℕ)
    (h : i < s.length) : Store.read (s ++ [v]) i = Store.read s i := by
  induction s generalizing i with
  | nil => simp at h
  | cons a rest ih =>
    cases i with
    | zero => rfl
    | succ k =>
      have hk : k < rest.length := Nat.lt_of_succ_lt_succ h
      simp only [Store.read, List.cons_append, List.getD_cons_succ]
      exact ih k hk

theorem Store_read_write_ne (s : Store) (n : ℕ) (v : List ℚ) (i : ℕ)
    (h : i ≠ n) : Store.read (Store.write s n v) i = Store.read s i := by
  induction s generalizing i n with
  | nil => rfl
  | cons a rest ih =>
    cases n with
    | zero =>
      cases i with
      | zero => exact absurd rfl h
      | succ k => rfl
    | succ m =>
      cases i with
      | zero => rfl
      | succ k =>
        simp only [Store.write, List.set_cons_succ, Store.read,
          List.getD_cons_succ]
        exact ih m k (fun hc => h (by rw [hc]))

theorem Store_length_write (s : Store) (n : ℕ) (v : List ℚ) :
    (Store.write s n v).length = s.length := List.length_set s n v

/-- C10 (confirmed): the respiration and heart-rate estimators never mutate
the caller's sample windows.  Both functions copy their arguments before the
in-place detrend and bandpass primitives run, so for every heap and every
valid caller array the contents at the caller's addresses are identical before
and after the call. -/
theorem C10_no_mutation (s : Store) (i j : ℕ) (hi : i < s.length)
    (hj : j < s.length) (detrendF bandpassF fftF : List ℚ → List ℚ)
    (vendor : List ℚ → List ℚ → ℚ) (rate : ℚ) :
    Store.read (estimate_respiration_heap s i detrendF bandpassF fftF rate).1 i
        = Store.read s i ∧
    Store.read (estimate_heart_rate_heap s i j detrendF bandpassF vendor).1 i
        = Store.read s i ∧
    Store.read (estimate_heart_rate_heap s i j detrendF bandpassF vendor).1 j
        = Store.read s j := by
  have hcopy : ∀ (t : Store) (k m : ℕ), m < t.length →
      Store.read (t ++ [Store.read t k]) m = Store.read t m :=
    fun t k m hm => Store_read_append_lt t (Store.read t k) m hm
  refine ⟨?_, ?_, ?_⟩
  · simp only [estimate_respiration_heap, Store.copyAlloc, Store.inplace]
    rw [Store_read_write_ne, Store_read_write_ne, hcopy s i i hi] <;>
      (try simp only [Store.write, List.length_set, List.length_append,
        List.length_cons, List.length_nil]) <;> omega
  · simp only [estimate_heart_rate_heap, Store.copyAlloc, Store.inplace]
    rw [Store_read_write_ne, Store_read_write_ne, Store_read_write_ne,
      Store_read_write_ne, hcopy, hcopy s i i hi] <;>
      (try simp only [Store.write, List.length_set, List.length_append,
        List.length_cons, List.length_nil]) <;> omega
  · simp only [estimate_heart_rate_heap, Store.copyAlloc, Store.inplace]
    rw [Store_read_write_ne, Store_read_write_ne, Store_read_write_ne,
      Store_read_write_ne, hcopy, hcopy s i j hj] <;>
      (try simp only [Store.write, List.length_set, List.length_append,
        List.length_cons, List.length_nil]) <;> omega

theorem C10_witness :
    Store.read (estimate_respiration_heap [[1, 2], [3, 4]] 0 id id id 1).1 0
        = Store.read [[1, 2], [3, 4]] 0 ∧
    Store.read
        (estimate_heart_rate_heap [[1, 2], [3, 4]] 0 1 id id
          (fun _ _ => 0)).1 0
        = Store.read [[1, 2], [3, 4]] 0 ∧
    Store.read
        (estimate_heart_rate_heap [[1, 2], [3, 4]] 0 1 id id
          (fun _ _ => 0)).1 1
        = Store.read [[1, 2], [3, 4]] 1 :=
  C10_no_mutation [[1, 2], [3, 4]] 0 1 (by decide) (by decide) id id id
    (fun _ _ => 0) 1

end BFOD
